import Mathlib

/-!
Verification of the chapter-4 web crawler / index store of
ProgrammingCollectiveIntelligence.

The repository contains two variants of the crawler core:
* `src/chapter4/crawler.py` — the refactored, unit-tested variant
  (`words_from_text`, `SqliteIndex.is_indexed`, `SqliteIndex.add_index`,
  `SqliteIndex.add_link_ref`, `Crawler.crawl`);
* `src/chapter4/search_engine.py` — the book-transcription variant
  (`Crawler.separate_words`, `Crawler.is_indexed`, `Crawler.add_to_index`,
  `Crawler.add_link_ref`, `Crawler.crawl`).

Definitions named `se_*` are translated from `search_engine.py`; the rest
are translated from `crawler.py`.

The SQLite tables are modelled as lists: a row's 1-based position in the
list is its `rowid` (rows are only ever appended, never deleted, so SQLite
assigns consecutive rowids starting at 1).  `SELECT rowid FROM t WHERE c = v`
with `fetchone()` returns the first matching rowid, modelled by `firstIdx`.
The HTTP fetcher plus HTML parser collaborators are modelled as a function
`String → Option Page` (`none` = fetch/parse failure, which the crawlers
catch per URL); a `Page` carries the visible text of the document and the
`(anchor text, absolute url)` pairs produced by link extraction.
-/

/-- One row per table, in rowid order.  `word_location` rows are
`(url_id, word_id, location)`, `link` rows are `(from_id, to_id)`,
`link_words` rows are `(link_id, word_id)`. -/
structure Store where
  url_list : List String
  word_list : List String
  word_location : List (Nat × Nat × Nat)
  link : List (Nat × Nat)
  link_words : List (Nat × Nat)
deriving DecidableEq

def emptyStore : Store := ⟨[], [], [], [], []⟩

/-- 0-based index of the first occurrence of `v` in `l`; models
`SELECT rowid FROM t WHERE c = v` + `fetchone()` (rowid = index + 1). -/
def firstIdx : List String → String → Option Nat
  | [], _ => none
  | x :: xs, v => if x = v then some 0 else (firstIdx xs v).map (· + 1)

/-- `SqliteIndex.get_entry_id` (crawler.py lines 64-76) and
`Crawler.get_entry_id` (search_engine.py lines 22-34), in the default
`create_if_not_exist=True` mode: return the rowid of the first row whose
column equals `v`, inserting a fresh row (rowid = length + 1) if absent. -/
def get_entry_id (tbl : List String) (v : String) : Nat × List String :=
  match firstIdx tbl v with
  | some i => (i + 1, tbl)
  | none => (tbl.length + 1, tbl ++ [v])

/-- Stop words, crawler.py line 11 and search_engine.py line 11. -/
def IGNORE_WORDS : List String := ["the", "of", "to", "and", "a", "in", "is", "it"]

/-- ASCII word characters, modelling the regex class `\w` used by the
splitter `re.compile(r'\W+')` (both files); the spec fixes the word-character
class as `[A-Za-z0-9_]` plus locale letters, and all inputs in play are ASCII. -/
def isWordChar (c : Char) : Bool := c.isAlphanum || c == '_'

/-- Maximal runs of word characters of a character list; splitting on `\W+`
and dropping empty fragments yields exactly these runs. -/
def wordRuns : List Char → List Char → List String
  | [], acc => if acc.isEmpty then [] else [String.mk acc.reverse]
  | c :: cs, acc =>
    if isWordChar c then wordRuns cs (c :: acc)
    else if acc.isEmpty then wordRuns cs [] else String.mk acc.reverse :: wordRuns cs []

/-- `Crawler.separate_words` (search_engine.py lines 70-72): split on runs of
non-word characters, drop empties, lowercase each token.  The identical
split-lower pipeline is the first stage of `words_from_text`
(crawler.py lines 16-17). -/
def separate_words (text : String) : List String :=
  (wordRuns text.data []).map (fun w => String.mk (w.data.map Char.toLower))

/-- `words_from_text` (crawler.py lines 14-19): the tokens of
`separate_words`, with stop words removed. -/
def words_from_text (text : String) (ignore : List String := IGNORE_WORDS) : List String :=
  (separate_words text).filter (fun w => ¬ ignore.contains w)

/-- `SqliteIndex.is_indexed` (crawler.py lines 78-93): true iff the URL has a
row in `url_list` and at least one `word_location` row references its rowid. -/
def Store.is_indexed (s : Store) (url : String) : Bool :=
  match firstIdx s.url_list url with
  | none => false
  | some i => s.word_location.any (fun p => p.1 == i + 1)

/-- The posting-insertion loop of `SqliteIndex.add_index`
(crawler.py lines 104-107): for each word, in order, assign/reuse a word id
and append one `word_location` row carrying the running `enumerate` index. -/
def add_index_loop (url_id : Nat) : Store → Nat → List String → Store
  | s, _, [] => s
  | s, idx, w :: ws =>
    let r := get_entry_id s.word_list w
    add_index_loop url_id
      { s with word_list := r.2,
               word_location := s.word_location ++ [(url_id, r.1, idx)] }
      (idx + 1) ws

/-- `SqliteIndex.add_index` (crawler.py lines 95-109): no-op when already
indexed; otherwise assign/reuse the URL id and run the posting loop from
index 0. -/
def Store.add_index (s : Store) (url : String) (words : List String) : Store :=
  if s.is_indexed url then s
  else
    let r := get_entry_id s.url_list url
    add_index_loop r.1 { s with url_list := r.2 } 0 words

/-- The anchor-word loop of `SqliteIndex.add_link_ref`
(crawler.py lines 122-125): assign/reuse a word id per word and append one
`link_words` row `(link_id, word_id)`. -/
def link_words_loop (link_id : Nat) : Store → List String → Store
  | s, [] => s
  | s, w :: ws =>
    let r := get_entry_id s.word_list w
    link_words_loop link_id
      { s with word_list := r.2, link_words := s.link_words ++ [(link_id, r.1)] } ws

/-- `SqliteIndex.add_link_ref` (crawler.py lines 111-127): assign/reuse ids
for both URLs (each `get_entry_id` commits its insert before the self-loop
test); if the ids coincide, stop; otherwise append one `link` row and one
`link_words` row per anchor word. -/
def Store.add_link_ref (s : Store) (url_from url_to : String) (lw : List String) : Store :=
  let rf := get_entry_id s.url_list url_from
  let rt := get_entry_id rf.2 url_to
  let s1 := { s with url_list := rt.2 }
  if rf.1 = rt.1 then s1
  else
    link_words_loop (s1.link.length + 1)
      { s1 with link := s1.link ++ [(rf.1, rt.1)] } lw

/-- `Crawler.is_indexed` (search_engine.py lines 74-87).  The Python
function returns `True`, `False`, or — when the URL has a row but no
posting — falls off the end and returns `None`; the three outcomes are
modelled as `some true`, `some false` and `none`. -/
def se_is_indexed (s : Store) (url : String) : Option Bool :=
  match firstIdx s.url_list url with
  | none => some false
  | some i => if s.word_location.any (fun p => p.1 == i + 1) then some true else none

/-- Python truthiness of the `se_is_indexed` result (`None` is falsy), as
used by `if self.is_indexed(url):` guards in search_engine.py. -/
def se_is_indexed_truthy (s : Store) (url : String) : Bool :=
  (se_is_indexed s url).getD false

/-- The posting-insertion loop of `Crawler.add_to_index`
(search_engine.py lines 51-56): enumerate ALL tokens, skip stop words, and
record the surviving word with its index in the unfiltered enumeration. -/
def se_add_index_loop (url_id : Nat) : Store → Nat → List String → Store
  | s, _, [] => s
  | s, idx, w :: ws =>
    if IGNORE_WORDS.contains w then se_add_index_loop url_id s (idx + 1) ws
    else
      let r := get_entry_id s.word_list w
      se_add_index_loop url_id
        { s with word_list := r.2,
                 word_location := s.word_location ++ [(url_id, r.1, idx)] }
        (idx + 1) ws

/-- `Crawler.add_to_index` (search_engine.py lines 36-57), with the
document's visible text in place of the soup argument: no-op when
`is_indexed` is truthy; otherwise tokenize with `separate_words`,
assign/reuse the URL id and run the posting loop. -/
def se_add_to_index (s : Store) (url : String) (text : String) : Store :=
  if se_is_indexed_truthy s url then s
  else
    let words := separate_words text
    let r := get_entry_id s.url_list url
    se_add_index_loop r.1 { s with url_list := r.2 } 0 words

/-- The anchor-word loop of `Crawler.add_link_ref`
(search_engine.py lines 101-106): skip stop words, otherwise assign/reuse a
word id and append one `link_words` row. -/
def se_link_words_loop (link_id : Nat) : Store → List String → Store
  | s, [] => s
  | s, w :: ws =>
    if IGNORE_WORDS.contains w then se_link_words_loop link_id s ws
    else
      let r := get_entry_id s.word_list w
      se_link_words_loop link_id
        { s with word_list := r.2, link_words := s.link_words ++ [(link_id, r.1)] } ws

/-- `Crawler.add_link_ref` (search_engine.py lines 89-108): tokenize the
anchor text, assign/reuse ids for both URLs, stop on a self-loop, otherwise
append one `link` row and the anchor-word rows. -/
def se_add_link_ref (s : Store) (url_from url_to : String) (link_text : String) : Store :=
  let words := separate_words link_text
  let rf := get_entry_id s.url_list url_from
  let rt := get_entry_id rf.2 url_to
  let s1 := { s with url_list := rt.2 }
  if rf.1 = rt.1 then s1
  else
    se_link_words_loop (s1.link.length + 1)
      { s1 with link := s1.link ++ [(rf.1, rt.1)] } words

/-- The parsed document of one fetched page, as the crawlers consume it:
`text` is the flattened visible text (`get_text_only` of the soup), `links`
the `(anchor text, absolute url)` pairs produced by link extraction
(`Crawler.get_valid_links`, crawler.py lines 151-157; `parsed_links`,
search_engine.py lines 125-127). -/
structure Page where
  text : String
  links : List (String × String)
deriving DecidableEq

/-- The fetch + parse collaborator: `none` models a fetch, HTTP-status or
parse failure for that URL. -/
def Fetcher : Type := String → Option Page

/-- The outcome of one frontier pass: the final store, the accumulated next
frontier (`next_urls` / `new_pages`), and the URLs for which a fetch was
attempted, in order. -/
structure PassResult where
  store : Store
  next : List String
  fetched : List String
deriving DecidableEq

/-- `set.add`: the next frontier is a de-duplicated collection, modelled as
a list in insertion order. -/
def insert_uniq (l : List String) (x : String) : List String :=
  if x ∈ l then l else l ++ [x]

/-- The link loop of `Crawler.crawl` (crawler.py lines 191-193): for every
extracted valid link, `do_link_ref` (line 174-176: tokenize the anchor text
and call `add_link_ref`) and then add the link URL to `next_urls`. -/
def do_link_refs (u : String) : Store → List String → List (String × String) →
    Store × List String
  | s, next, [] => (s, next)
  | s, next, (t, l) :: ls =>
    do_link_refs u (s.add_link_ref u l (words_from_text t)) (insert_uniq next l) ls

/-- One frontier pass of `Crawler.crawl` (crawler.py lines 178-193), with
the store collaborator never raising.  The generator `not_indexed_url`
evaluates `is_indexed` lazily at the moment each URL is pulled; a fetch or
parse failure (`fetch u = none`) is caught, logged and the URL skipped;
otherwise `do_index` (tokenize + `add_index`) runs, then the link loop. -/
def crawl_pass (fetch : String → Option Page) :
    Store → List String → List String → List String → PassResult
  | s, next, fetched, [] => ⟨s, next, fetched⟩
  | s, next, fetched, u :: rest =>
    if s.is_indexed u then crawl_pass fetch s next fetched rest
    else
      match fetch u with
      | none => crawl_pass fetch s next (fetched ++ [u]) rest
      | some page =>
        let s1 := s.add_index u (words_from_text page.text)
        let r := do_link_refs u s1 next page.links
        crawl_pass fetch r.1 r.2 (fetched ++ [u]) rest

/-- The recursion of `Crawler.crawl` (crawler.py lines 178-199), modelled
with explicit fuel: each unit of fuel is one activation of `crawl`.  After
the frontier pass, `depth` is decremented; the recursion returns only when
the decremented depth equals 0, otherwise it recurses on the next frontier
(there is no frontier-emptiness test in the source).  `none` means the fuel
ran out before the recursion returned. -/
def crawl_fuel (fetch : String → Option Page) :
    Nat → Store → List String → Int → Option Store
  | 0, _, _, _ => none
  | n + 1, s, urls, depth =>
    let r := crawl_pass fetch s [] [] urls
    if depth - 1 = 0 then some r.store
    else crawl_fuel fetch n r.store r.next (depth - 1)

/-- The Python recursion terminates exactly when some finite recursion depth
suffices, i.e. when some amount of fuel makes `crawl_fuel` return. -/
def crawl_terminates (fetch : String → Option Page)
    (s : Store) (urls : List String) (depth : Int) : Prop :=
  ∃ n, (crawl_fuel fetch n s urls depth).isSome = true

/-- The link loop of `Crawler.crawl` in search_engine.py (lines 128-136):
for each link, add its URL to `new_pages` only when it is not already
indexed (truthiness of `is_indexed`), then `add_link_ref` with the raw
anchor text. -/
def se_do_links (u : String) : Store → List String → List (String × String) →
    Store × List String
  | s, next, [] => (s, next)
  | s, next, (t, l) :: ls =>
    let next1 := if se_is_indexed_truthy s l then next else insert_uniq next l
    se_do_links u (se_add_link_ref s u l t) next1 ls

/-- One iteration of the `for page in pages` loop of `Crawler.crawl`
(search_engine.py lines 113-138), over the whole frontier: every page is
fetched (there is no pre-fetch indexed check); a fetch failure skips the
page; otherwise `add_to_index` runs and then the link loop. -/
def se_crawl_pass (fetch : String → Option Page) :
    Store → List String → List String → List String → PassResult
  | s, next, fetched, [] => ⟨s, next, fetched⟩
  | s, next, fetched, p :: rest =>
    match fetch p with
    | none => se_crawl_pass fetch s next (fetched ++ [p]) rest
    | some page =>
      let s1 := se_add_to_index s p page.text
      let r := se_do_links p s1 next page.links
      se_crawl_pass fetch r.1 r.2 (fetched ++ [p]) rest

/-- `Crawler.crawl` of search_engine.py (lines 110-140): `for i in
range(depth)` executes the frontier pass `max depth 0` times; the loop
terminates for every integer depth. -/
def se_crawl (fetch : String → Option Page) :
    Nat → Store → List String → Store
  | 0, s, _ => s
  | n + 1, s, pages =>
    let r := se_crawl_pass fetch s [] [] pages
    se_crawl fetch n r.store r.next

/-- The link loop of crawler.py `crawl` with a store collaborator whose
`add_link_ref` may raise (`Except.error`): `do_link_ref` is called outside
the per-URL `try` block (lines 190-192), so an error here aborts the loop. -/
def link_refs_exc (addLink : Store → String → String → List String → Except Unit Store)
    (u : String) : Store → List String → List (String × String) →
    Except Unit (Store × List String)
  | s, next, [] => .ok (s, next)
  | s, next, (t, l) :: ls =>
    match addLink s u l (words_from_text t) with
    | .error e => .error e
    | .ok s1 => link_refs_exc addLink u s1 (insert_uniq next l) ls

/-- One frontier pass of crawler.py `crawl` (lines 178-193) with store
collaborators that may raise.  An error raised by `add_index` is re-raised
by `do_index` (lines 166-170) into the per-URL `try` of `crawl`
(lines 182-189), which logs and `continue`s — so it is caught at the
per-URL boundary.  An error raised by `add_link_ref` occurs in the `else`
block, outside the `try`, and propagates out of `crawl`. -/
def crawl_pass_exc (fetch : String → Option Page)
    (addIdx : Store → String → List String → Except Unit Store)
    (addLink : Store → String → String → List String → Except Unit Store) :
    Store → List String → List String → List String → Except Unit PassResult
  | s, next, fetched, [] => .ok ⟨s, next, fetched⟩
  | s, next, fetched, u :: rest =>
    if s.is_indexed u then crawl_pass_exc fetch addIdx addLink s next fetched rest
    else
      match fetch u with
      | none => crawl_pass_exc fetch addIdx addLink s next (fetched ++ [u]) rest
      | some page =>
        match addIdx s u (words_from_text page.text) with
        | .error _ => crawl_pass_exc fetch addIdx addLink s next (fetched ++ [u]) rest
        | .ok s1 =>
          match link_refs_exc addLink u s1 next page.links with
          | .error e => .error e
          | .ok r => crawl_pass_exc fetch addIdx addLink r.1 r.2 (fetched ++ [u]) rest

/-- The link loop of search_engine.py `crawl` with a raising
`add_link_ref`: the call sits directly in the page loop (line 136), outside
any `try`, so an error propagates. -/
def se_links_exc (addLink : Store → String → String → String → Except Unit Store)
    (u : String) : Store → List String → List (String × String) →
    Except Unit (Store × List String)
  | s, next, [] => .ok (s, next)
  | s, next, (t, l) :: ls =>
    let next1 := if se_is_indexed_truthy s l then next else insert_uniq next l
    match addLink s u l t with
    | .error e => .error e
    | .ok s1 => se_links_exc addLink u s1 next1 ls

/-- One pass of search_engine.py `crawl` (lines 113-138) with store
collaborators that may raise: the per-page `try` (lines 115-120) covers
only the fetch; `add_to_index` runs in the `else` branch (line 123) and
`add_link_ref` in the link loop (line 136), so an error from either
propagates out of `crawl`. -/
def se_crawl_pass_exc (fetch : String → Option Page)
    (addIdx : Store → String → String → Except Unit Store)
    (addLink : Store → String → String → String → Except Unit Store) :
    Store → List String → List String → List String → Except Unit PassResult
  | s, next, fetched, [] => .ok ⟨s, next, fetched⟩
  | s, next, fetched, p :: rest =>
    match fetch p with
    | none => se_crawl_pass_exc fetch addIdx addLink s next (fetched ++ [p]) rest
    | some page =>
      match addIdx s p page.text with
      | .error e => .error e
      | .ok s1 =>
        match se_links_exc addLink p s1 next page.links with
        | .error e => .error e
        | .ok r => se_crawl_pass_exc fetch addIdx addLink r.1 r.2 (fetched ++ [p]) rest

/-- The store collaborator of crawler.py behaving normally: `add_index`
never raises. -/
def pure_add_index : Store → String → List String → Except Unit Store :=
  fun s u w => .ok (s.add_index u w)

/-- The store collaborator of crawler.py behaving normally: `add_link_ref`
never raises. -/
def pure_add_link_ref : Store → String → String → List String → Except Unit Store :=
  fun s a b w => .ok (s.add_link_ref a b w)

/-- A store whose `add_index` always raises a store error. -/
def fail_add_index : Store → String → List String → Except Unit Store :=
  fun _ _ _ => .error ()

/-- A store whose `add_link_ref` always raises a store error. -/
def fail_add_link_ref : Store → String → String → List String → Except Unit Store :=
  fun _ _ _ _ => .error ()

/-- The search_engine.py store behaving normally. -/
def se_pure_add_to_index : Store → String → String → Except Unit Store :=
  fun s u t => .ok (se_add_to_index s u t)

/-- A search_engine.py store whose `add_to_index` always raises. -/
def se_fail_add_to_index : Store → String → String → Except Unit Store :=
  fun _ _ _ => .error ()

/-- The search_engine.py `add_link_ref` behaving normally. -/
def se_pure_add_link_ref : Store → String → String → String → Except Unit Store :=
  fun s a b t => .ok (se_add_link_ref s a b t)

/-- The spec's §3 invariant that every posting references an existing URL
record, as a decidable store predicate. -/
def Store.postings_bounded (s : Store) : Bool :=
  s.word_location.all (fun p => p.1 ≤ s.url_list.length)

/-- A store in which the URL `l` is indexed: it has a URL record (rowid 1)
and one posting referencing it. -/
def store_l : Store := ⟨["l"], ["w"], [(1, 1, 0)], [], []⟩

/-- A store in which the URL `u` has a record but no posting (the state a
URL reaches when it is discovered as a link target, or indexed with zero
surviving tokens). -/
def store_u_no_postings : Store := ⟨["u"], [], [], [], []⟩

/-- A fetcher serving one page at URL `u` whose single valid link points to
`l`; every other URL fails to fetch. -/
def fetch0 : String → Option Page :=
  fun u => if u = "u" then some ⟨"hello", [("click here", "l")]⟩ else none

/-- A fetcher serving at `u` a page whose visible text consists entirely of
stop words. -/
def fetch_stop : String → Option Page :=
  fun u => if u = "u" then some ⟨"the of is", [("x", "http://a")]⟩ else none

theorem firstIdx_cons (x : String) (xs : List String) (v : String) :
    firstIdx (x :: xs) v = if x = v then some 0 else (firstIdx xs v).map (· + 1) :=
  rfl

theorem firstIdx_eq_none_iff {l : List String} {v : String} :
    firstIdx l v = none ↔ v ∉ l := by
  induction l with
  | nil => simp [firstIdx]
  | cons x xs ih =>
    by_cases h : x = v
    · subst h
      simp [firstIdx_cons]
    · rw [firstIdx_cons, if_neg h, Option.map_eq_none', ih, List.mem_cons, not_or]
      constructor
      · intro hv
        exact ⟨fun hc => h hc.symm, hv⟩
      · intro hv
        exact hv.2

theorem firstIdx_append_of_some {l t : List String} {v : String} {i : Nat}
    (h : firstIdx l v = some i) : firstIdx (l ++ t) v = some i := by
  induction l generalizing i with
  | nil => simp [firstIdx] at h
  | cons x xs ih =>
    rw [List.cons_append, firstIdx_cons]
    rw [firstIdx_cons] at h
    by_cases hx : x = v
    · rwa [if_pos hx] at h ⊢
    · rw [if_neg hx] at h ⊢
      cases hj : firstIdx xs v with
      | none => rw [hj, Option.map_none'] at h; exact Option.noConfusion h
      | some j =>
        rw [hj, Option.map_some'] at h
        rw [ih hj, Option.map_some']
        exact h

theorem firstIdx_append_self {l : List String} {v : String} (h : v ∉ l) :
    firstIdx (l ++ [v]) v = some l.length := by
  induction l with
  | nil => simp [firstIdx]
  | cons x xs ih =>
    have hx : x ≠ v := fun hc => h (by simp [hc])
    have hxs : v ∉ xs := fun hc => h (by simp [hc])
    rw [List.cons_append, firstIdx_cons, if_neg hx, ih hxs, Option.map_some',
      List.length_cons]

theorem firstIdx_getElem {l : List String} {v : String} {i : Nat}
    (h : firstIdx l v = some i) : l[i]? = some v := by
  induction l generalizing i with
  | nil => simp [firstIdx] at h
  | cons x xs ih =>
    rw [firstIdx_cons] at h
    by_cases hx : x = v
    · rw [if_pos hx] at h
      cases h
      simp [hx]
    · rw [if_neg hx] at h
      cases hj : firstIdx xs v with
      | none => rw [hj, Option.map_none'] at h; exact Option.noConfusion h
      | some j =>
        rw [hj, Option.map_some'] at h
        cases h
        simpa using ih hj

theorem firstIdx_of_mem {l : List String} {v : String} (h : v ∈ l) :
    ∃ i, firstIdx l v = some i := by
  cases hx : firstIdx l v with
  | none => exact absurd (firstIdx_eq_none_iff.mp hx) (by simp [h])
  | some i => exact ⟨i, rfl⟩

theorem getElem?_append_some {α : Type} {l t : List α} {i : Nat} {a : α}
    (h : l[i]? = some a) : (l ++ t)[i]? = some a := by
  induction l generalizing i with
  | nil => simp at h
  | cons x xs ih =>
    cases i with
    | zero => simpa using h
    | succ j => simpa using ih (by simpa using h)

theorem get_entry_id_of_firstIdx {tbl : List String} {v : String} {i : Nat}
    (h : firstIdx tbl v = some i) : get_entry_id tbl v = (i + 1, tbl) := by
  simp [get_entry_id, h]

theorem get_entry_id_of_not_mem {tbl : List String} {v : String} (h : v ∉ tbl) :
    get_entry_id tbl v = (tbl.length + 1, tbl ++ [v]) := by
  simp [get_entry_id, firstIdx_eq_none_iff.mpr h]

theorem get_entry_id_append (tbl : List String) (v : String) :
    ∃ ext, (get_entry_id tbl v).2 = tbl ++ ext := by
  by_cases h : v ∈ tbl
  · obtain ⟨i, hi⟩ := firstIdx_of_mem h
    exact ⟨[], by simp [get_entry_id_of_firstIdx hi]⟩
  · exact ⟨[v], by simp [get_entry_id_of_not_mem h]⟩

theorem get_entry_id_mem (tbl : List String) (v : String) :
    v ∈ (get_entry_id tbl v).2 := by
  by_cases h : v ∈ tbl
  · obtain ⟨i, hi⟩ := firstIdx_of_mem h
    simpa [get_entry_id_of_firstIdx hi] using h
  · simp [get_entry_id_of_not_mem h]

theorem get_entry_id_firstIdx (tbl : List String) (v : String) :
    firstIdx (get_entry_id tbl v).2 v = some ((get_entry_id tbl v).1 - 1) := by
  by_cases h : v ∈ tbl
  · obtain ⟨i, hi⟩ := firstIdx_of_mem h
    simp [get_entry_id_of_firstIdx hi, hi]
  · simp [get_entry_id_of_not_mem h, firstIdx_append_self h]

theorem get_entry_id_getElem (tbl : List String) (v : String) :
    (get_entry_id tbl v).2[(get_entry_id tbl v).1 - 1]? = some v :=
  firstIdx_getElem (get_entry_id_firstIdx tbl v)

theorem get_entry_id_of_mem {tbl : List String} {v : String} (h : v ∈ tbl) :
    (get_entry_id tbl v).2 = tbl := by
  obtain ⟨i, hi⟩ := firstIdx_of_mem h
  simp [get_entry_id_of_firstIdx hi]

theorem get_entry_id_idem (tbl : List String) (v : String) :
    get_entry_id (get_entry_id tbl v).2 v = get_entry_id tbl v := by
  by_cases h : v ∈ tbl
  · obtain ⟨i, hi⟩ := firstIdx_of_mem h
    simp [get_entry_id_of_firstIdx hi]
  · rw [get_entry_id_of_not_mem h]
    rw [get_entry_id_of_firstIdx (firstIdx_append_self h)]

theorem insert_uniq_self (l : List String) (x : String) : x ∈ insert_uniq l x := by
  unfold insert_uniq
  by_cases h : x ∈ l <;> simp [h]

theorem insert_uniq_mono {l : List String} {y : String} (x : String) (h : y ∈ l) :
    y ∈ insert_uniq l x := by
  unfold insert_uniq
  by_cases hx : x ∈ l <;> simp [hx, h]

theorem add_index_loop_nil (uid : Nat) (s : Store) (idx : Nat) :
    add_index_loop uid s idx [] = s :=
  rfl

theorem add_index_loop_cons (uid : Nat) (s : Store) (idx : Nat) (w : String)
    (ws : List String) :
    add_index_loop uid s idx (w :: ws) =
      add_index_loop uid
        { s with word_list := (get_entry_id s.word_list w).2,
                 word_location :=
                   s.word_location ++ [(uid, (get_entry_id s.word_list w).1, idx)] }
        (idx + 1) ws :=
  rfl

/-- Everything the posting loop of crawler.py `add_index` does: it touches
only `word_list` (append-extended) and `word_location`, and appends one
posting `(url_id, wid_j, idx + j)` per word, where `wid_j` is the rowid of
the j-th word in the final `word_list`. -/
theorem add_index_loop_spec (uid : Nat) (ws : List String) :
    ∀ (s : Store) (idx : Nat),
    ∃ ps ext,
      (add_index_loop uid s idx ws).url_list = s.url_list ∧
      (add_index_loop uid s idx ws).word_list = s.word_list ++ ext ∧
      (add_index_loop uid s idx ws).word_location = s.word_location ++ ps ∧
      (add_index_loop uid s idx ws).link = s.link ∧
      (add_index_loop uid s idx ws).link_words = s.link_words ∧
      ps.length = ws.length ∧
      (∀ j w, ws[j]? = some w → ∃ wid,
        ps[j]? = some (uid, wid, idx + j) ∧
        (add_index_loop uid s idx ws).word_list[wid - 1]? = some w) := by
  induction ws with
  | nil =>
    intro s idx
    refine ⟨[], [], ?_, ?_, ?_, ?_, ?_, ?_, ?_⟩ <;>
      simp [add_index_loop_nil]
  | cons w ws ih =>
    intro s idx
    obtain ⟨ext0, hext0⟩ := get_entry_id_append s.word_list w
    obtain ⟨ps1, ext1, h1, h2, h3, h4, h5, h6, h7⟩ :=
      ih { s with word_list := (get_entry_id s.word_list w).2,
                  word_location :=
                    s.word_location ++ [(uid, (get_entry_id s.word_list w).1, idx)] }
        (idx + 1)
    refine ⟨(uid, (get_entry_id s.word_list w).1, idx) :: ps1, ext0 ++ ext1,
      ?_, ?_, ?_, ?_, ?_, ?_, ?_⟩
    · rw [add_index_loop_cons, h1]
    · rw [add_index_loop_cons, h2]
      simp only [hext0]
      rw [List.append_assoc]
    · rw [add_index_loop_cons, h3]
      simp only
      rw [List.append_assoc, List.singleton_append]
    · rw [add_index_loop_cons, h4]
    · rw [add_index_loop_cons, h5]
    · simp only [List.length_cons, List.length_cons]
      rw [h6]
    · intro j w2 hj
      cases j with
      | zero =>
        simp only [List.getElem?_cons_zero, Option.some.injEq] at hj
        subst hj
        refine ⟨(get_entry_id s.word_list w).1, ?_, ?_⟩
        · simp
        · rw [add_index_loop_cons, h2]
          exact getElem?_append_some (get_entry_id_getElem s.word_list w)
      | succ j =>
        simp only [List.getElem?_cons_succ] at hj
        obtain ⟨wid, hw1, hw2⟩ := h7 j w2 hj
        refine ⟨wid, ?_, ?_⟩
        · simp only [List.getElem?_cons_succ]
          rw [hw1]
          have : idx + 1 + j = idx + (j + 1) := by omega
          rw [this]
        · rw [add_index_loop_cons]
          exact hw2

theorem link_words_loop_nil (lid : Nat) (s : Store) :
    link_words_loop lid s [] = s :=
  rfl

theorem link_words_loop_cons (lid : Nat) (s : Store) (w : String) (ws : List String) :
    link_words_loop lid s (w :: ws) =
      link_words_loop lid
        { s with word_list := (get_entry_id s.word_list w).2,
                 link_words := s.link_words ++ [(lid, (get_entry_id s.word_list w).1)] }
        ws :=
  rfl

/-- The anchor-word loop of crawler.py `add_link_ref` touches only
`word_list` and `link_words`, both append-extended. -/
theorem link_words_loop_spec (lid : Nat) (ws : List String) :
    ∀ s : Store, ∃ ext lws,
      (link_words_loop lid s ws).url_list = s.url_list ∧
      (link_words_loop lid s ws).word_list = s.word_list ++ ext ∧
      (link_words_loop lid s ws).word_location = s.word_location ∧
      (link_words_loop lid s ws).link = s.link ∧
      (link_words_loop lid s ws).link_words = s.link_words ++ lws := by
  induction ws with
  | nil =>
    intro s
    refine ⟨[], [], ?_, ?_, ?_, ?_, ?_⟩ <;> simp [link_words_loop_nil]
  | cons w ws ih =>
    intro s
    obtain ⟨ext0, hext0⟩ := get_entry_id_append s.word_list w
    obtain ⟨ext1, lws1, h1, h2, h3, h4, h5⟩ :=
      ih { s with word_list := (get_entry_id s.word_list w).2,
                  link_words := s.link_words ++ [(lid, (get_entry_id s.word_list w).1)] }
    refine ⟨ext0 ++ ext1, (lid, (get_entry_id s.word_list w).1) :: lws1,
      ?_, ?_, ?_, ?_, ?_⟩
    · rw [link_words_loop_cons, h1]
    · rw [link_words_loop_cons, h2]
      simp only [hext0]
      rw [List.append_assoc]
    · rw [link_words_loop_cons, h3]
    · rw [link_words_loop_cons, h4]
    · rw [link_words_loop_cons, h5]
      simp only
      rw [List.append_assoc, List.singleton_append]

theorem se_add_index_loop_nil (uid : Nat) (s : Store) (idx : Nat) :
    se_add_index_loop uid s idx [] = s :=
  rfl

theorem se_add_index_loop_cons (uid : Nat) (s : Store) (idx : Nat) (w : String)
    (ws : List String) :
    se_add_index_loop uid s idx (w :: ws) =
      if IGNORE_WORDS.contains w then se_add_index_loop uid s (idx + 1) ws
      else
        se_add_index_loop uid
          { s with word_list := (get_entry_id s.word_list w).2,
                   word_location :=
                     s.word_location ++ [(uid, (get_entry_id s.word_list w).1, idx)] }
          (idx + 1) ws :=
  rfl

theorem se_add_index_loop_cons_stop (uid : Nat) (s : Store) (idx : Nat) {w : String}
    (ws : List String) (h : IGNORE_WORDS.contains w = true) :
    se_add_index_loop uid s idx (w :: ws) = se_add_index_loop uid s (idx + 1) ws := by
  rw [se_add_index_loop_cons, if_pos h]

theorem se_add_index_loop_cons_keep (uid : Nat) (s : Store) (idx : Nat) {w : String}
    (ws : List String) (h : IGNORE_WORDS.contains w = false) :
    se_add_index_loop uid s idx (w :: ws) =
      se_add_index_loop uid
        { s with word_list := (get_entry_id s.word_list w).2,
                 word_location :=
                   s.word_location ++ [(uid, (get_entry_id s.word_list w).1, idx)] }
        (idx + 1) ws := by
  rw [se_add_index_loop_cons,
    if_neg (fun hc => Bool.noConfusion (h ▸ hc : false = true))]

/-- When every token is a stop word, the posting loop of search_engine.py
`add_to_index` does nothing at all. -/
theorem se_add_index_loop_all_stop (uid : Nat) (ws : List String)
    (h : ∀ w ∈ ws, IGNORE_WORDS.contains w = true) :
    ∀ (s : Store) (idx : Nat), se_add_index_loop uid s idx ws = s := by
  induction ws with
  | nil => intro s idx; rfl
  | cons w ws ih =>
    intro s idx
    rw [se_add_index_loop_cons_stop uid s idx ws (h w (by simp))]
    exact ih (fun w2 hw2 => h w2 (by simp [hw2])) s (idx + 1)

/-- The posting loop of search_engine.py `add_to_index` touches only
`word_list` and `word_location`; every appended posting references `uid`,
and at least one posting is appended when some token survives the
stop-word filter. -/
theorem se_add_index_loop_spec (uid : Nat) (ws : List String) :
    ∀ (s : Store) (idx : Nat),
    ∃ ps ext,
      (se_add_index_loop uid s idx ws).url_list = s.url_list ∧
      (se_add_index_loop uid s idx ws).word_list = s.word_list ++ ext ∧
      (se_add_index_loop uid s idx ws).word_location = s.word_location ++ ps ∧
      (se_add_index_loop uid s idx ws).link = s.link ∧
      (se_add_index_loop uid s idx ws).link_words = s.link_words ∧
      (∀ p ∈ ps, p.1 = uid) ∧
      ((∃ w ∈ ws, IGNORE_WORDS.contains w = false) → ps ≠ []) := by
  induction ws with
  | nil =>
    intro s idx
    refine ⟨[], [], ?_, ?_, ?_, ?_, ?_, ?_, ?_⟩ <;>
      simp [se_add_index_loop_nil]
  | cons w ws ih =>
    intro s idx
    by_cases hw : IGNORE_WORDS.contains w = true
    · obtain ⟨ps1, ext1, h1, h2, h3, h4, h5, h6, h7⟩ := ih s (idx + 1)
      refine ⟨ps1, ext1, ?_, ?_, ?_, ?_, ?_, h6, ?_⟩
      · rw [se_add_index_loop_cons_stop uid s idx ws hw, h1]
      · rw [se_add_index_loop_cons_stop uid s idx ws hw, h2]
      · rw [se_add_index_loop_cons_stop uid s idx ws hw, h3]
      · rw [se_add_index_loop_cons_stop uid s idx ws hw, h4]
      · rw [se_add_index_loop_cons_stop uid s idx ws hw, h5]
      · intro hex
        apply h7
        rcases hex with ⟨w2, hw2, hcontains⟩
        rcases List.mem_cons.mp hw2 with hc | hc
        · subst hc
          rw [hw] at hcontains
          exact Bool.noConfusion hcontains
        · exact ⟨w2, hc, hcontains⟩
    · have hw2 : IGNORE_WORDS.contains w = false := by
        cases hcc : IGNORE_WORDS.contains w
        · rfl
        · exact absurd hcc hw
      obtain ⟨ext0, hext0⟩ := get_entry_id_append s.word_list w
      obtain ⟨ps1, ext1, h1, h2, h3, h4, h5, h6, h7⟩ :=
        ih { s with word_list := (get_entry_id s.word_list w).2,
                    word_location :=
                      s.word_location ++ [(uid, (get_entry_id s.word_list w).1, idx)] }
          (idx + 1)
      refine ⟨(uid, (get_entry_id s.word_list w).1, idx) :: ps1, ext0 ++ ext1,
        ?_, ?_, ?_, ?_, ?_, ?_, ?_⟩
      · rw [se_add_index_loop_cons_keep uid s idx ws hw2, h1]
      · rw [se_add_index_loop_cons_keep uid s idx ws hw2, h2]
        simp only [hext0]
        rw [List.append_assoc]
      · rw [se_add_index_loop_cons_keep uid s idx ws hw2, h3]
        simp only
        rw [List.append_assoc, List.singleton_append]
      · rw [se_add_index_loop_cons_keep uid s idx ws hw2, h4]
      · rw [se_add_index_loop_cons_keep uid s idx ws hw2, h5]
      · intro p hp
        rcases List.mem_cons.mp hp with hc | hc
        · subst hc; rfl
        · exact h6 p hc
      · intro _
        simp

theorem se_link_words_loop_nil (lid : Nat) (s : Store) :
    se_link_words_loop lid s [] = s :=
  rfl

/-- The anchor-word loop of search_engine.py `add_link_ref` touches only
`word_list` and `link_words`, both append-extended. -/
theorem se_link_words_loop_spec (lid : Nat) (ws : List String) :
    ∀ s : Store, ∃ ext lws,
      (se_link_words_loop lid s ws).url_list = s.url_list ∧
      (se_link_words_loop lid s ws).word_list = s.word_list ++ ext ∧
      (se_link_words_loop lid s ws).word_location = s.word_location ∧
      (se_link_words_loop lid s ws).link = s.link ∧
      (se_link_words_loop lid s ws).link_words = s.link_words ++ lws := by
  induction ws with
  | nil =>
    intro s
    refine ⟨[], [], ?_, ?_, ?_, ?_, ?_⟩ <;> simp [se_link_words_loop_nil]
  | cons w ws ih =>
    intro s
    by_cases hw : IGNORE_WORDS.contains w = true
    · obtain ⟨ext1, lws1, h1, h2, h3, h4, h5⟩ := ih s
      exact ⟨ext1, lws1, by simp only [se_link_words_loop, hw, if_pos]; exact h1,
        by simp only [se_link_words_loop, hw, if_pos]; exact h2,
        by simp only [se_link_words_loop, hw, if_pos]; exact h3,
        by simp only [se_link_words_loop, hw, if_pos]; exact h4,
        by simp only [se_link_words_loop, hw, if_pos]; exact h5⟩
    · obtain ⟨ext1, lws1, h1, h2, h3, h4, h5⟩ :=
        ih { s with word_list := (get_entry_id s.word_list w).2,
                    link_words := s.link_words ++ [(lid, (get_entry_id s.word_list w).1)] }
      obtain ⟨ext0, hext0⟩ := get_entry_id_append s.word_list w
      refine ⟨ext0 ++ ext1, (lid, (get_entry_id s.word_list w).1) :: lws1,
        ?_, ?_, ?_, ?_, ?_⟩ <;>
        simp only [se_link_words_loop, hw, if_neg, Bool.false_eq_true,
          not_false_eq_true]
      · exact h1
      · rw [h2]
        simp only [hext0]
        rw [List.append_assoc]
      · exact h3
      · exact h4
      · rw [h5]
        simp only
        rw [List.append_assoc, List.singleton_append]

theorem mem_of_getElem?_eq_some {α : Type} {l : List α} {i : Nat} {a : α}
    (h : l[i]? = some a) : a ∈ l := by
  induction l generalizing i with
  | nil => simp at h
  | cons x xs ih =>
    cases i with
    | zero =>
      simp only [List.getElem?_cons_zero, Option.some.injEq] at h
      simp [h]
    | succ j =>
      simp only [List.getElem?_cons_succ] at h
      simp [ih h]

theorem get_entry_id_pos (tbl : List String) (v : String) :
    1 ≤ (get_entry_id tbl v).1 := by
  unfold get_entry_id
  cases firstIdx tbl v <;> simp

theorem add_index_of_indexed {s : Store} {u : String} (W : List String)
    (h : s.is_indexed u = true) : s.add_index u W = s := by
  unfold Store.add_index
  rw [if_pos h]

theorem add_index_not_indexed_eq {s : Store} {u : String} (W : List String)
    (h : s.is_indexed u = false) :
    s.add_index u W =
      add_index_loop (get_entry_id s.url_list u).1
        { s with url_list := (get_entry_id s.url_list u).2 } 0 W := by
  unfold Store.add_index
  rw [if_neg (fun hc => Bool.noConfusion (h ▸ hc : false = true))]

/-- Everything crawler.py `add_index` does on a not-yet-indexed URL: the URL
record is assigned/reused, `word_list` is append-extended, and exactly one
posting per word is appended, the j-th posting carrying the URL's rowid, the
word's rowid and position j. -/
theorem add_index_spec {s : Store} {u : String} (W : List String)
    (h : s.is_indexed u = false) :
    ∃ ps ext,
      (s.add_index u W).url_list = (get_entry_id s.url_list u).2 ∧
      (s.add_index u W).word_list = s.word_list ++ ext ∧
      (s.add_index u W).word_location = s.word_location ++ ps ∧
      (s.add_index u W).link = s.link ∧
      (s.add_index u W).link_words = s.link_words ∧
      ps.length = W.length ∧
      (∀ (j : Nat) (w : String), W[j]? = some w → ∃ wid,
        ps[j]? = some ((get_entry_id s.url_list u).1, wid, j) ∧
        (s.add_index u W).word_list[wid - 1]? = some w) := by
  obtain ⟨ps, ext, h1, h2, h3, h4, h5, h6, h7⟩ :=
    add_index_loop_spec (get_entry_id s.url_list u).1 W
      { s with url_list := (get_entry_id s.url_list u).2 } 0
  rw [← add_index_not_indexed_eq W h] at h1 h2 h3 h4 h5 h7
  refine ⟨ps, ext, h1, h2, h3, h4, h5, h6, ?_⟩
  intro j w hj
  obtain ⟨wid, hw1, hw2⟩ := h7 j w hj
  rw [Nat.zero_add] at hw1
  exact ⟨wid, hw1, hw2⟩

theorem add_index_url_list_append (s : Store) (u : String) (W : List String) :
    ∃ ext, (s.add_index u W).url_list = s.url_list ++ ext := by
  cases h : s.is_indexed u with
  | false =>
    obtain ⟨ps, ext, h1, _⟩ := add_index_spec W h
    obtain ⟨ext2, hext2⟩ := get_entry_id_append s.url_list u
    exact ⟨ext2, by rw [h1, hext2]⟩
  | true => exact ⟨[], by rw [add_index_of_indexed W h]; simp⟩

theorem add_index_word_location_append (s : Store) (u : String) (W : List String) :
    ∃ ps, (s.add_index u W).word_location = s.word_location ++ ps := by
  cases h : s.is_indexed u with
  | false =>
    obtain ⟨ps, ext, h1, h2, h3, _⟩ := add_index_spec W h
    exact ⟨ps, h3⟩
  | true => exact ⟨[], by rw [add_index_of_indexed W h]; simp⟩

theorem add_index_mem_url {s : Store} {u : String} (W : List String)
    (h : s.is_indexed u = false) : u ∈ (s.add_index u W).url_list := by
  obtain ⟨ps, ext, h1, _⟩ := add_index_spec W h
  rw [h1]
  exact get_entry_id_mem _ _

theorem add_index_nil_of_mem {s : Store} {u : String} (h : s.is_indexed u = false)
    (hm : u ∈ s.url_list) : s.add_index u [] = s := by
  rw [add_index_not_indexed_eq [] h, add_index_loop_nil, get_entry_id_of_mem hm]

theorem is_indexed_eq_true_iff {s : Store} {u : String} :
    s.is_indexed u = true ↔
      ∃ i, firstIdx s.url_list u = some i ∧ ∃ p ∈ s.word_location, p.1 = i + 1 := by
  unfold Store.is_indexed
  cases h : firstIdx s.url_list u with
  | none => simp
  | some i =>
    simp only [List.any_eq_true, beq_iff_eq, Option.some.injEq]
    constructor
    · rintro ⟨p, hp, he⟩
      exact ⟨i, rfl, p, hp, he⟩
    · rintro ⟨j, hj, p, hp, he⟩
      cases hj
      exact ⟨p, hp, he⟩

theorem is_indexed_false_of_not_mem {s : Store} {u : String} (h : u ∉ s.url_list) :
    s.is_indexed u = false := by
  unfold Store.is_indexed
  rw [firstIdx_eq_none_iff.mpr h]

theorem is_indexed_mono {s s2 : Store} {u : String}
    (hu : ∃ ext, s2.url_list = s.url_list ++ ext)
    (hw : ∃ ps, s2.word_location = s.word_location ++ ps)
    (h : s.is_indexed u = true) : s2.is_indexed u = true := by
  obtain ⟨i, hi, p, hp, he⟩ := is_indexed_eq_true_iff.mp h
  obtain ⟨ext, hext⟩ := hu
  obtain ⟨ps, hps⟩ := hw
  apply is_indexed_eq_true_iff.mpr
  exact ⟨i, by rw [hext]; exact firstIdx_append_of_some hi,
    p, by rw [hps]; exact List.mem_append_left _ hp, he⟩

theorem is_indexed_congr {s s2 : Store} {u : String}
    (hu : ∃ ext, s2.url_list = s.url_list ++ ext)
    (hm : u ∈ s.url_list)
    (hw : s2.word_location = s.word_location) :
    s2.is_indexed u = s.is_indexed u := by
  obtain ⟨i, hi⟩ := firstIdx_of_mem hm
  obtain ⟨ext, hext⟩ := hu
  unfold Store.is_indexed
  rw [hi, hext, firstIdx_append_of_some hi, hw]

theorem is_indexed_add_index_self {s : Store} {u : String} {W : List String}
    (h : s.is_indexed u = false) (hW : W ≠ []) :
    (s.add_index u W).is_indexed u = true := by
  obtain ⟨ps, ext, h1, h2, h3, h4, h5, h6, h7⟩ := add_index_spec W h
  obtain ⟨w0, hw0⟩ : ∃ w0, W[0]? = some w0 := by
    cases W with
    | nil => exact absurd rfl hW
    | cons a as => exact ⟨a, by simp⟩
  obtain ⟨wid, hp1, hp2⟩ := h7 0 w0 hw0
  apply is_indexed_eq_true_iff.mpr
  refine ⟨(get_entry_id s.url_list u).1 - 1, ?_, ?_⟩
  · rw [h1]
    exact get_entry_id_firstIdx s.url_list u
  · refine ⟨((get_entry_id s.url_list u).1, wid, 0), ?_, ?_⟩
    · rw [h3]
      exact List.mem_append_right _ (mem_of_getElem?_eq_some hp1)
    · have hpos := get_entry_id_pos s.url_list u
      omega

theorem add_link_ref_eq (s : Store) (a b : String) (lw : List String) :
    s.add_link_ref a b lw =
      if (get_entry_id s.url_list a).1 = (get_entry_id (get_entry_id s.url_list a).2 b).1
      then { s with url_list := (get_entry_id (get_entry_id s.url_list a).2 b).2 }
      else
        link_words_loop (s.link.length + 1)
          { s with url_list := (get_entry_id (get_entry_id s.url_list a).2 b).2,
                   link := s.link ++
                     [((get_entry_id s.url_list a).1,
                       (get_entry_id (get_entry_id s.url_list a).2 b).1)] } lw :=
  rfl

/-- The frame of crawler.py `add_link_ref`: `url_list`, `word_list`, `link`
and `link_words` are append-extended and `word_location` is untouched. -/
theorem add_link_ref_fields (s : Store) (a b : String) (lw : List String) :
    (∃ ext, (s.add_link_ref a b lw).url_list = s.url_list ++ ext) ∧
    (∃ ext, (s.add_link_ref a b lw).word_list = s.word_list ++ ext) ∧
    (s.add_link_ref a b lw).word_location = s.word_location ∧
    (∃ ext, (s.add_link_ref a b lw).link = s.link ++ ext) ∧
    (∃ ext, (s.add_link_ref a b lw).link_words = s.link_words ++ ext) := by
  obtain ⟨e1, he1⟩ := get_entry_id_append s.url_list a
  obtain ⟨e2, he2⟩ := get_entry_id_append (get_entry_id s.url_list a).2 b
  have hurl : (get_entry_id (get_entry_id s.url_list a).2 b).2 = s.url_list ++ (e1 ++ e2) := by
    rw [he2, he1, List.append_assoc]
  rw [add_link_ref_eq]
  by_cases hg :
      (get_entry_id s.url_list a).1 = (get_entry_id (get_entry_id s.url_list a).2 b).1
  · rw [if_pos hg]
    exact ⟨⟨e1 ++ e2, hurl⟩, ⟨[], by simp⟩, rfl, ⟨[], by simp⟩, ⟨[], by simp⟩⟩
  · rw [if_neg hg]
    obtain ⟨ext, lws, g1, g2, g3, g4, g5⟩ :=
      link_words_loop_spec (s.link.length + 1) lw
        { s with url_list := (get_entry_id (get_entry_id s.url_list a).2 b).2,
                 link := s.link ++
                   [((get_entry_id s.url_list a).1,
                     (get_entry_id (get_entry_id s.url_list a).2 b).1)] }
    refine ⟨⟨e1 ++ e2, ?_⟩, ⟨ext, g2⟩, g3, ⟨_, g4⟩, ⟨lws, g5⟩⟩
    rw [g1]
    exact hurl

theorem add_link_ref_word_location (s : Store) (a b : String) (lw : List String) :
    (s.add_link_ref a b lw).word_location = s.word_location :=
  (add_link_ref_fields s a b lw).2.2.1

theorem add_link_ref_url_list_append (s : Store) (a b : String) (lw : List String) :
    ∃ ext, (s.add_link_ref a b lw).url_list = s.url_list ++ ext :=
  (add_link_ref_fields s a b lw).1

theorem se_truthy_eq_is_indexed (s : Store) (u : String) :
    se_is_indexed_truthy s u = s.is_indexed u := by
  unfold se_is_indexed_truthy se_is_indexed Store.is_indexed
  cases h : firstIdx s.url_list u with
  | none => rfl
  | some i =>
    show (if (s.word_location.any fun p => p.1 == i + 1) = true
        then some true else none).getD false =
      s.word_location.any fun p => p.1 == i + 1
    by_cases ha : s.word_location.any (fun p => p.1 == i + 1) = true
    · rw [if_pos ha, ha]
      rfl
    · have ha2 : s.word_location.any (fun p => p.1 == i + 1) = false := by
        cases hval : s.word_location.any (fun p => p.1 == i + 1)
        · rfl
        · exact absurd hval ha
      rw [ha2]
      simp

theorem se_add_to_index_of_indexed {s : Store} {u : String} (text : String)
    (h : s.is_indexed u = true) : se_add_to_index s u text = s := by
  unfold se_add_to_index
  rw [if_pos (by rw [se_truthy_eq_is_indexed, h])]

theorem se_add_to_index_eq {s : Store} {u : String} (text : String)
    (h : s.is_indexed u = false) :
    se_add_to_index s u text =
      se_add_index_loop (get_entry_id s.url_list u).1
        { s with url_list := (get_entry_id s.url_list u).2 } 0 (separate_words text) := by
  unfold se_add_to_index
  rw [if_neg (fun hc => Bool.noConfusion
    (h ▸ (se_truthy_eq_is_indexed s u ▸ hc) : false = true))]

/-- Everything search_engine.py `add_to_index` does on a not-yet-indexed
URL: the URL record is assigned/reused, `word_list` is append-extended and
some postings referencing the URL's rowid are appended — at least one
posting whenever some token survives the stop-word filter. -/
theorem se_add_to_index_spec {s : Store} {u : String} (text : String)
    (h : s.is_indexed u = false) :
    ∃ ps ext,
      (se_add_to_index s u text).url_list = (get_entry_id s.url_list u).2 ∧
      (se_add_to_index s u text).word_list = s.word_list ++ ext ∧
      (se_add_to_index s u text).word_location = s.word_location ++ ps ∧
      (se_add_to_index s u text).link = s.link ∧
      (se_add_to_index s u text).link_words = s.link_words ∧
      (∀ p ∈ ps, p.1 = (get_entry_id s.url_list u).1) ∧
      ((∃ w ∈ separate_words text, IGNORE_WORDS.contains w = false) → ps ≠ []) := by
  obtain ⟨ps, ext, h1, h2, h3, h4, h5, h6, h7⟩ :=
    se_add_index_loop_spec (get_entry_id s.url_list u).1 (separate_words text)
      { s with url_list := (get_entry_id s.url_list u).2 } 0
  rw [← se_add_to_index_eq text h] at h1 h2 h3 h4 h5
  exact ⟨ps, ext, h1, h2, h3, h4, h5, h6, h7⟩

theorem do_link_refs_nil (u : String) (s : Store) (next : List String) :
    do_link_refs u s next [] = (s, next) :=
  rfl

theorem do_link_refs_cons (u : String) (s : Store) (next : List String)
    (t l : String) (ls : List (String × String)) :
    do_link_refs u s next ((t, l) :: ls) =
      do_link_refs u (s.add_link_ref u l (words_from_text t)) (insert_uniq next l) ls :=
  rfl

theorem do_link_refs_word_location (u : String) (ls : List (String × String)) :
    ∀ (s : Store) (next : List String),
      (do_link_refs u s next ls).1.word_location = s.word_location := by
  induction ls with
  | nil => intro s next; rfl
  | cons hd tl ih =>
    intro s next
    obtain ⟨t, l⟩ := hd
    rw [do_link_refs_cons, ih, add_link_ref_word_location]

theorem do_link_refs_url_list (u : String) (ls : List (String × String)) :
    ∀ (s : Store) (next : List String),
      ∃ ext, (do_link_refs u s next ls).1.url_list = s.url_list ++ ext := by
  induction ls with
  | nil => intro s next; exact ⟨[], by simp [do_link_refs_nil]⟩
  | cons hd tl ih =>
    intro s next
    obtain ⟨t, l⟩ := hd
    obtain ⟨e1, he1⟩ := add_link_ref_url_list_append s u l (words_from_text t)
    obtain ⟨e2, he2⟩ := ih (s.add_link_ref u l (words_from_text t)) (insert_uniq next l)
    refine ⟨e1 ++ e2, ?_⟩
    rw [do_link_refs_cons, he2, he1, List.append_assoc]

theorem do_link_refs_next_mono (u : String) (ls : List (String × String)) :
    ∀ (s : Store) (next : List String) (x : String),
      x ∈ next → x ∈ (do_link_refs u s next ls).2 := by
  induction ls with
  | nil => intro s next x hx; simpa [do_link_refs_nil] using hx
  | cons hd tl ih =>
    intro s next x hx
    obtain ⟨t, l⟩ := hd
    rw [do_link_refs_cons]
    exact ih _ _ _ (insert_uniq_mono l hx)

theorem do_link_refs_next_mem (u : String) (ls : List (String × String)) :
    ∀ (s : Store) (next : List String) (t l : String),
      (t, l) ∈ ls → l ∈ (do_link_refs u s next ls).2 := by
  induction ls with
  | nil => intro s next t l hx; simp at hx
  | cons hd tl ih =>
    intro s next t l hx
    obtain ⟨t0, l0⟩ := hd
    rw [do_link_refs_cons]
    rcases List.mem_cons.mp hx with hc | hc
    · have : l = l0 := congrArg Prod.snd hc
      subst this
      exact do_link_refs_next_mono u tl _ _ _ (insert_uniq_self next l)
    · exact ih _ _ _ _ hc

theorem crawl_pass_nil (fetch : String → Option Page) (s : Store)
    (next fetched : List String) :
    crawl_pass fetch s next fetched [] = ⟨s, next, fetched⟩ :=
  rfl

theorem crawl_pass_cons (fetch : String → Option Page) (s : Store)
    (next fetched : List String) (u : String) (rest : List String) :
    crawl_pass fetch s next fetched (u :: rest) =
      if s.is_indexed u then crawl_pass fetch s next fetched rest
      else
        match fetch u with
        | none => crawl_pass fetch s next (fetched ++ [u]) rest
        | some page =>
          crawl_pass fetch
            (do_link_refs u (s.add_index u (words_from_text page.text)) next page.links).1
            (do_link_refs u (s.add_index u (words_from_text page.text)) next page.links).2
            (fetched ++ [u]) rest :=
  rfl

theorem crawl_pass_cons_indexed {fetch : String → Option Page} {s : Store}
    {next fetched : List String} {u : String} {rest : List String}
    (h : s.is_indexed u = true) :
    crawl_pass fetch s next fetched (u :: rest) = crawl_pass fetch s next fetched rest := by
  rw [crawl_pass_cons, if_pos h]

theorem crawl_pass_cons_fail {fetch : String → Option Page} {s : Store}
    {next fetched : List String} {u : String} {rest : List String}
    (h : s.is_indexed u = false) (hf : fetch u = none) :
    crawl_pass fetch s next fetched (u :: rest) =
      crawl_pass fetch s next (fetched ++ [u]) rest := by
  rw [crawl_pass_cons, if_neg (fun hc => Bool.noConfusion (h ▸ hc : false = true)), hf]

theorem crawl_pass_cons_page {fetch : String → Option Page} {s : Store}
    {next fetched : List String} {u : String} {rest : List String} {page : Page}
    (h : s.is_indexed u = false) (hf : fetch u = some page) :
    crawl_pass fetch s next fetched (u :: rest) =
      crawl_pass fetch
        (do_link_refs u (s.add_index u (words_from_text page.text)) next page.links).1
        (do_link_refs u (s.add_index u (words_from_text page.text)) next page.links).2
        (fetched ++ [u]) rest := by
  rw [crawl_pass_cons, if_neg (fun hc => Bool.noConfusion (h ▸ hc : false = true)), hf]

theorem crawl_pass_fetched_mono (fetch : String → Option Page) (urls : List String) :
    ∀ (s : Store) (next fetched : List String) (x : String),
      x ∈ fetched → x ∈ (crawl_pass fetch s next fetched urls).fetched := by
  induction urls with
  | nil =>
    intro s next fetched x hx
    simpa [crawl_pass_nil] using hx
  | cons u rest ih =>
    intro s next fetched x hx
    cases h : s.is_indexed u with
    | true =>
      rw [crawl_pass_cons_indexed h]
      exact ih _ _ _ _ hx
    | false =>
      cases hf : fetch u with
      | none =>
        rw [crawl_pass_cons_fail h hf]
        exact ih _ _ _ _ (List.mem_append_left _ hx)
      | some page =>
        rw [crawl_pass_cons_page h hf]
        exact ih _ _ _ _ (List.mem_append_left _ hx)

theorem crawl_pass_next_mono (fetch : String → Option Page) (urls : List String) :
    ∀ (s : Store) (next fetched : List String) (x : String),
      x ∈ next → x ∈ (crawl_pass fetch s next fetched urls).next := by
  induction urls with
  | nil =>
    intro s next fetched x hx
    simpa [crawl_pass_nil] using hx
  | cons u rest ih =>
    intro s next fetched x hx
    cases h : s.is_indexed u with
    | true =>
      rw [crawl_pass_cons_indexed h]
      exact ih _ _ _ _ hx
    | false =>
      cases hf : fetch u with
      | none =>
        rw [crawl_pass_cons_fail h hf]
        exact ih _ _ _ _ hx
      | some page =>
        rw [crawl_pass_cons_page h hf]
        exact ih _ _ _ _ (do_link_refs_next_mono u page.links _ _ _ hx)

/-- A URL that is already indexed when a crawler.py frontier pass starts is
never fetched during that pass: the lazy `not_indexed_url` generator checks
`is_indexed` at the moment each URL is pulled, and indexing only ever adds
rows, so the URL stays indexed throughout the pass. -/
theorem crawl_pass_not_fetched_of_indexed (fetch : String → Option Page)
    (urls : List String) :
    ∀ (s : Store) (next fetched : List String) (u : String),
      s.is_indexed u = true → u ∉ fetched →
      u ∉ (crawl_pass fetch s next fetched urls).fetched := by
  induction urls with
  | nil =>
    intro s next fetched u hi hnf
    simpa [crawl_pass_nil] using hnf
  | cons v rest ih =>
    intro s next fetched u hi hnf
    cases hv : s.is_indexed v with
    | true =>
      rw [crawl_pass_cons_indexed hv]
      exact ih _ _ _ _ hi hnf
    | false =>
      have hne : v ≠ u := by
        intro hc
        rw [hc, hi] at hv
        exact Bool.noConfusion hv
      have hnf2 : u ∉ fetched ++ [v] := by
        intro hc
        rcases List.mem_append.mp hc with hc | hc
        · exact hnf hc
        · simp only [List.mem_singleton] at hc
          exact hne hc.symm
      cases hf : fetch v with
      | none =>
        rw [crawl_pass_cons_fail hv hf]
        exact ih _ _ _ _ hi hnf2
      | some page =>
        rw [crawl_pass_cons_page hv hf]
        refine ih _ _ _ _ ?_ hnf2
        apply is_indexed_mono ?_ ?_ hi
        · obtain ⟨e1, he1⟩ :=
            add_index_url_list_append s v (words_from_text page.text)
          obtain ⟨e2, he2⟩ :=
            do_link_refs_url_list v page.links (s.add_index v (words_from_text page.text))
              next
          exact ⟨e1 ++ e2, by rw [he2, he1, List.append_assoc]⟩
        · obtain ⟨ps, hps⟩ :=
            add_index_word_location_append s v (words_from_text page.text)
          refine ⟨ps, ?_⟩
          rw [do_link_refs_word_location, hps]

/-- Crawling the frontier `[v, v]` leaves `word_location` exactly as
crawling `[v]` does: either the first processing of `v` inserts postings
(then the second pull is filtered by `is_indexed`), or it inserts none
(zero surviving tokens), in which case the second processing re-runs
`add_index` with an empty word list, which adds no posting either. -/
theorem crawl_pass_dup_word_location (fetch : String → Option Page) (s : Store)
    (v : String) :
    (crawl_pass fetch s [] [] [v, v]).store.word_location =
      (crawl_pass fetch s [] [] [v]).store.word_location := by
  cases hv : s.is_indexed v with
  | true =>
    rw [crawl_pass_cons_indexed hv, crawl_pass_cons_indexed hv]
  | false =>
    cases hf : fetch v with
    | none =>
      rw [crawl_pass_cons_fail hv hf, crawl_pass_cons_fail hv hf,
        crawl_pass_cons_fail hv hf, crawl_pass_nil, crawl_pass_nil]
    | some page =>
      rw [crawl_pass_cons_page hv hf, crawl_pass_cons_page hv hf]
      set s1 := s.add_index v (words_from_text page.text) with hs1
      set r := do_link_refs v s1 [] page.links with hr
      cases h2 : r.1.is_indexed v with
      | true =>
        rw [crawl_pass_cons_indexed h2]
      | false =>
        have hW : words_from_text page.text = [] := by
          by_contra hne
          have hidx : s1.is_indexed v = true :=
            is_indexed_add_index_self hv hne
          have hidx2 : r.1.is_indexed v = true := by
            apply is_indexed_mono ?_ ?_ hidx
            · exact do_link_refs_url_list v page.links s1 []
            · exact ⟨[], by rw [do_link_refs_word_location]; simp⟩
          rw [h2] at hidx2
          exact Bool.noConfusion hidx2
        have hmem : v ∈ r.1.url_list := by
          obtain ⟨ext, hext⟩ := do_link_refs_url_list v page.links s1 []
          rw [hext]
          exact List.mem_append_left _ (add_index_mem_url _ hv)
        have hidem : r.1.add_index v (words_from_text page.text) = r.1 := by
          rw [hW]
          exact add_index_nil_of_mem h2 hmem
        rw [crawl_pass_cons_page h2 hf, hidem, crawl_pass_nil, crawl_pass_nil]
        exact do_link_refs_word_location v page.links r.1 r.2

theorem crawl_fuel_zero (fetch : String → Option Page) (s : Store)
    (urls : List String) (depth : Int) :
    crawl_fuel fetch 0 s urls depth = none :=
  rfl

theorem crawl_fuel_succ (fetch : String → Option Page) (n : Nat) (s : Store)
    (urls : List String) (depth : Int) :
    crawl_fuel fetch (n + 1) s urls depth =
      if depth - 1 = 0 then some (crawl_pass fetch s [] [] urls).store
      else crawl_fuel fetch n (crawl_pass fetch s [] [] urls).store
        (crawl_pass fetch s [] [] urls).next (depth - 1) :=
  rfl

/-- With a non-positive starting depth, the recursion of crawler.py `crawl`
never reaches its only stop condition (`depth == 0` after decrement), no
matter how much fuel it is given: the depth only ever decreases. -/
theorem crawl_fuel_none_of_nonpos (fetch : String → Option Page) :
    ∀ (n : Nat) (s : Store) (urls : List String) (depth : Int),
      depth ≤ 0 → crawl_fuel fetch n s urls depth = none := by
  intro n
  induction n with
  | zero => intro s urls depth _; rfl
  | succ n ih =>
    intro s urls depth hd
    rw [crawl_fuel_succ, if_neg (by omega)]
    exact ih _ _ _ (by omega)

/-- With a positive starting depth `n + 1`, the recursion of crawler.py
`crawl` returns after exactly `n + 1` activations. -/
theorem crawl_fuel_some_of_pos (fetch : String → Option Page) :
    ∀ (n : Nat) (s : Store) (urls : List String),
      (crawl_fuel fetch (n + 1) s urls ((n : Int) + 1)).isSome = true := by
  intro n
  induction n with
  | zero =>
    intro s urls
    rw [crawl_fuel_succ, if_pos (by omega)]
    rfl
  | succ n ih =>
    intro s urls
    rw [crawl_fuel_succ, if_neg (by omega)]
    have hc : ((n + 1 : Nat) : Int) + 1 - 1 = (n : Int) + 1 := by push_cast; ring
    rw [hc]
    exact ih _ _

theorem crawl_pass_exc_nil (fetch : String → Option Page)
    (addIdx : Store → String → List String → Except Unit Store)
    (addLink : Store → String → String → List String → Except Unit Store)
    (s : Store) (next fetched : List String) :
    crawl_pass_exc fetch addIdx addLink s next fetched [] = .ok ⟨s, next, fetched⟩ :=
  rfl

theorem crawl_pass_exc_cons (fetch : String → Option Page)
    (addIdx : Store → String → List String → Except Unit Store)
    (addLink : Store → String → String → List String → Except Unit Store)
    (s : Store) (next fetched : List String) (u : String) (rest : List String) :
    crawl_pass_exc fetch addIdx addLink s next fetched (u :: rest) =
      if s.is_indexed u then crawl_pass_exc fetch addIdx addLink s next fetched rest
      else
        match fetch u with
        | none => crawl_pass_exc fetch addIdx addLink s next (fetched ++ [u]) rest
        | some page =>
          match addIdx s u (words_from_text page.text) with
          | .error _ => crawl_pass_exc fetch addIdx addLink s next (fetched ++ [u]) rest
          | .ok s1 =>
            match link_refs_exc addLink u s1 next page.links with
            | .error e => .error e
            | .ok r => crawl_pass_exc fetch addIdx addLink r.1 r.2 (fetched ++ [u]) rest :=
  rfl

/-- With an `add_index` that always raises, every URL of the frontier is
either skipped by the `is_indexed` filter or fetched and then dropped by the
per-URL `except` handler of crawler.py `crawl`; the pass always completes. -/
theorem crawl_pass_exc_ok_of_fail_idx (fetch : String → Option Page)
    (urls : List String) :
    ∀ (s : Store) (next fetched : List String),
      (crawl_pass_exc fetch fail_add_index pure_add_link_ref s next fetched urls).isOk
        = true := by
  induction urls with
  | nil => intro s next fetched; rfl
  | cons u rest ih =>
    intro s next fetched
    rw [crawl_pass_exc_cons]
    by_cases h : s.is_indexed u = true
    · rw [if_pos h]
      exact ih s next fetched
    · rw [if_neg h]
      cases hf : fetch u with
      | none => exact ih s next (fetched ++ [u])
      | some page => exact ih s next (fetched ++ [u])

theorem se_crawl_pass_exc_cons (fetch : String → Option Page)
    (addIdx : Store → String → String → Except Unit Store)
    (addLink : Store → String → String → String → Except Unit Store)
    (s : Store) (next fetched : List String) (p : String) (rest : List String) :
    se_crawl_pass_exc fetch addIdx addLink s next fetched (p :: rest) =
      match fetch p with
      | none => se_crawl_pass_exc fetch addIdx addLink s next (fetched ++ [p]) rest
      | some page =>
        match addIdx s p page.text with
        | .error e => .error e
        | .ok s1 =>
          match se_links_exc addLink p s1 next page.links with
          | .error e => .error e
          | .ok r => se_crawl_pass_exc fetch addIdx addLink r.1 r.2 (fetched ++ [p]) rest :=
  rfl

/-- `is_indexed` stays false for a URL whose record was freshly appended, as
long as no posting was added and the store satisfied the §3 invariant that
postings reference existing URL records. -/
theorem is_indexed_false_of_bounded {s s3 : Store} {u : String}
    (hm : u ∉ s.url_list)
    (hbd : ∀ p ∈ s.word_location, p.1 ≤ s.url_list.length)
    (hu : ∃ ext, s3.url_list = (s.url_list ++ [u]) ++ ext)
    (hw : s3.word_location = s.word_location) :
    s3.is_indexed u = false := by
  obtain ⟨ext, hext⟩ := hu
  have hfi : firstIdx s3.url_list u = some s.url_list.length := by
    rw [hext]
    exact firstIdx_append_of_some (firstIdx_append_self hm)
  cases hval : s3.is_indexed u with
  | false => rfl
  | true =>
    obtain ⟨i, hi, p, hp, he⟩ := is_indexed_eq_true_iff.mp hval
    rw [hfi] at hi
    cases hi
    rw [hw] at hp
    have := hbd p hp
    omega

/-- crawler.py `add_index` is idempotent: the second call either returns via
the `is_indexed` guard (some posting was inserted) or re-runs without
inserting anything (the word list was empty). -/
theorem add_index_idem_crawler (s : Store) (u : String) (W : List String) :
    (s.add_index u W).add_index u W = s.add_index u W := by
  cases h : s.is_indexed u with
  | true => rw [add_index_of_indexed W h, add_index_of_indexed W h]
  | false =>
    cases W with
    | nil =>
      cases h2 : (s.add_index u []).is_indexed u with
      | true => exact add_index_of_indexed [] h2
      | false => exact add_index_nil_of_mem h2 (add_index_mem_url [] h)
    | cons w ws =>
      exact add_index_of_indexed _ (is_indexed_add_index_self h (by simp))

/-- search_engine.py `add_to_index` is idempotent: the second call either
returns via the truthy `is_indexed` guard (some non-stop-word token produced
a posting) or re-runs a loop that skips every token. -/
theorem se_add_to_index_idem (s : Store) (u : String) (text : String) :
    se_add_to_index (se_add_to_index s u text) u text = se_add_to_index s u text := by
  cases h : s.is_indexed u with
  | true => rw [se_add_to_index_of_indexed text h, se_add_to_index_of_indexed text h]
  | false =>
    cases h2 : (se_add_to_index s u text).is_indexed u with
    | true => exact se_add_to_index_of_indexed text h2
    | false =>
      have hstop : ∀ w ∈ separate_words text, IGNORE_WORDS.contains w = true := by
        by_contra hc
        push_neg at hc
        obtain ⟨w, hwmem, hwc⟩ := hc
        have hwf : IGNORE_WORDS.contains w = false := by
          cases hcc : IGNORE_WORDS.contains w
          · rfl
          · exact absurd hcc hwc
        obtain ⟨ps, ext, g1, g2, g3, g4, g5, g6, g7⟩ := se_add_to_index_spec text h
        obtain ⟨p, hp⟩ : ∃ p, p ∈ ps := by
          cases hps : ps with
          | nil => exact absurd hps (g7 ⟨w, hwmem, hwf⟩)
          | cons q qs => exact ⟨q, by simp [hps]⟩
        have hidx : (se_add_to_index s u text).is_indexed u = true := by
          apply is_indexed_eq_true_iff.mpr
          refine ⟨(get_entry_id s.url_list u).1 - 1, ?_, p, ?_, ?_⟩
          · rw [g1]
            exact get_entry_id_firstIdx s.url_list u
          · rw [g3]
            exact List.mem_append_right _ hp
          · have := g6 p hp
            have hpos := get_entry_id_pos s.url_list u
            omega
        rw [h2] at hidx
        exact Bool.noConfusion hidx
      have hs1eq : se_add_to_index s u text =
          { s with url_list := (get_entry_id s.url_list u).2 } := by
        rw [se_add_to_index_eq text h, se_add_index_loop_all_stop _ _ hstop]
      rw [se_add_to_index_eq text h2, se_add_index_loop_all_stop _ _ hstop, hs1eq]
      rw [get_entry_id_of_mem (get_entry_id_mem s.url_list u)]

theorem se_add_link_ref_eq (s : Store) (a b : String) (txt : String) :
    se_add_link_ref s a b txt =
      if (get_entry_id s.url_list a).1 = (get_entry_id (get_entry_id s.url_list a).2 b).1
      then { s with url_list := (get_entry_id (get_entry_id s.url_list a).2 b).2 }
      else
        se_link_words_loop (s.link.length + 1)
          { s with url_list := (get_entry_id (get_entry_id s.url_list a).2 b).2,
                   link := s.link ++
                     [((get_entry_id s.url_list a).1,
                       (get_entry_id (get_entry_id s.url_list a).2 b).1)] }
          (separate_words txt) :=
  rfl

/-- C9: the tokenizer `words_from_text` with the default stop-word set
splits on runs of non-word characters, drops empty fragments, lowercases
every token and removes stop words; on
"This is fully-functional machine^name$money" it returns exactly
["this","fully","functional","machine","name","money"]. -/
theorem words_from_text_example :
    words_from_text "This is fully-functional machine^name$money" =
      ["this", "fully", "functional", "machine", "name", "money"] := by
  decide

/-- C1 counterexample: search_engine.py `add_to_index` (also cited by the
claim) records, for each surviving word, its index in the UNFILTERED token
sequence: indexing tokens "foo is bar" produces postings at positions 0 and
2, not the dense 0 and 1 the claim requires. -/
theorem se_add_to_index_positions_not_dense :
    (se_add_to_index emptyStore "u" "foo is bar").word_location = [(1, 1, 0), (1, 2, 2)] ∧
    (se_add_to_index emptyStore "u" "foo is bar").word_location ≠
      [(1, 1, 0), (1, 2, 1)] ∧
    (se_add_to_index emptyStore "u" "foo is bar").word_location.map (fun p => p.2.2) ≠
      List.range (words_from_text "foo is bar").length := by
  decide

/-- C1 amended: crawler.py `add_index` on a not-yet-indexed URL and a
(pre-filtered) word list appends exactly one posting per word, the j-th
posting carrying the URL's rowid, a word id resolving to the j-th word, and
position j — dense positions in the filtered sequence.  (search_engine.py's
`add_to_index` instead records indices of the unfiltered token sequence.) -/
theorem add_index_dense_positions (s : Store) (u : String) (W : List String)
    (h : s.is_indexed u = false) :
    ∃ uid ps,
      (s.add_index u W).word_location = s.word_location ++ ps ∧
      ps.length = W.length ∧
      (s.add_index u W).url_list[uid - 1]? = some u ∧
      (∀ (j : Nat) (w : String), W[j]? = some w → ∃ wid,
        ps[j]? = some (uid, wid, j) ∧
        (s.add_index u W).word_list[wid - 1]? = some w) := by
  obtain ⟨ps, ext, h1, h2, h3, h4, h5, h6, h7⟩ := add_index_spec W h
  refine ⟨(get_entry_id s.url_list u).1, ps, h3, h6, ?_, h7⟩
  rw [h1]
  exact get_entry_id_getElem s.url_list u

/-- C1 witness: the claim's own example — indexing a fresh URL with
["foo","bar","python","nah"] yields exactly the postings
(1,1,0),(1,2,1),(1,3,2),(1,4,3). -/
theorem add_index_dense_positions_witness :
    (∃ uid ps,
      (emptyStore.add_index "u" ["foo", "bar", "python", "nah"]).word_location =
        emptyStore.word_location ++ ps ∧
      ps.length = (["foo", "bar", "python", "nah"] : List String).length ∧
      (emptyStore.add_index "u" ["foo", "bar", "python", "nah"]).url_list[uid - 1]? =
        some "u" ∧
      (∀ (j : Nat) (w : String), (["foo", "bar", "python", "nah"] : List String)[j]? =
          some w → ∃ wid,
        ps[j]? = some (uid, wid, j) ∧
        (emptyStore.add_index "u" ["foo", "bar", "python", "nah"]).word_list[wid - 1]? =
          some w)) ∧
    (emptyStore.add_index "u" ["foo", "bar", "python", "nah"]).word_location =
      [(1, 1, 0), (1, 2, 1), (1, 3, 2), (1, 4, 3)] :=
  ⟨add_index_dense_positions emptyStore "u" ["foo", "bar", "python", "nah"] (by decide),
   by decide⟩

/-- C2: calling `addIndex(u, W)` twice with the same arguments leaves the
whole store — in particular the postings — identical to a single call, in
both variants (crawler.py `add_index` on a word list, search_engine.py
`add_to_index` on a page text). -/
theorem add_index_idempotent (s : Store) (u : String) (W : List String) (text : String) :
    (s.add_index u W).add_index u W = s.add_index u W ∧
    se_add_to_index (se_add_to_index s u text) u text = se_add_to_index s u text :=
  ⟨add_index_idem_crawler s u W, se_add_to_index_idem s u text⟩

/-- C5 counterexample: on a URL that has a record but no posting,
search_engine.py `is_indexed` returns `None` (modelled `none`), not the
boolean `False` the claim requires. -/
theorem se_is_indexed_returns_none :
    se_is_indexed store_u_no_postings "u" = none ∧
    se_is_indexed store_u_no_postings "u" ≠ some false := by
  decide

/-- C5 amended: crawler.py `is_indexed` returns a boolean that is true iff
the URL has a record (first matching rowid) and at least one posting
references that rowid; search_engine.py `is_indexed` agrees on `True`
(iff the same condition) and returns `False` exactly when there is no
record, but returns `None` — not `False` — when a record exists with zero
postings. -/
theorem is_indexed_characterization (s : Store) (u : String) :
    (s.is_indexed u = true ↔
      ∃ i, firstIdx s.url_list u = some i ∧ ∃ p ∈ s.word_location, p.1 = i + 1) ∧
    (se_is_indexed s u = some true ↔ s.is_indexed u = true) ∧
    (se_is_indexed s u = some false ↔ u ∉ s.url_list) ∧
    (se_is_indexed s u = none ↔ (u ∈ s.url_list ∧ s.is_indexed u = false)) := by
  refine ⟨is_indexed_eq_true_iff, ?_, ?_, ?_⟩ <;>
  · cases h : firstIdx s.url_list u with
    | none =>
      have hnm : u ∉ s.url_list := firstIdx_eq_none_iff.mp h
      simp [se_is_indexed, Store.is_indexed, h, hnm]
    | some i =>
      have hmem : u ∈ s.url_list := mem_of_getElem?_eq_some (firstIdx_getElem h)
      by_cases ha : s.word_location.any (fun p => p.1 == i + 1) = true
      · simp [se_is_indexed, Store.is_indexed, h, ha, hmem]
      · have ha2 : s.word_location.any (fun p => p.1 == i + 1) = false := by
          cases hv : s.word_location.any (fun p => p.1 == i + 1)
          · rfl
          · exact absurd hv ha
        simp [se_is_indexed, Store.is_indexed, h, ha2, hmem]

/-- C8: a self-loop `addLinkRef(a, a, anyWords)` assigns or reuses the URL
record for `a` and changes nothing else: `word_list`, `word_location`,
`link` and `link_words` are all left untouched, in both variants. -/
theorem add_link_ref_self_loop (s : Store) (a : String) (ws : List String)
    (txt : String) :
    ((s.add_link_ref a a ws).url_list = (get_entry_id s.url_list a).2 ∧
     a ∈ (s.add_link_ref a a ws).url_list ∧
     (s.add_link_ref a a ws).word_list = s.word_list ∧
     (s.add_link_ref a a ws).word_location = s.word_location ∧
     (s.add_link_ref a a ws).link = s.link ∧
     (s.add_link_ref a a ws).link_words = s.link_words) ∧
    ((se_add_link_ref s a a txt).url_list = (get_entry_id s.url_list a).2 ∧
     a ∈ (se_add_link_ref s a a txt).url_list ∧
     (se_add_link_ref s a a txt).word_list = s.word_list ∧
     (se_add_link_ref s a a txt).word_location = s.word_location ∧
     (se_add_link_ref s a a txt).link = s.link ∧
     (se_add_link_ref s a a txt).link_words = s.link_words) := by
  have hidem := get_entry_id_idem s.url_list a
  have hcr : s.add_link_ref a a ws =
      { s with url_list := (get_entry_id s.url_list a).2 } := by
    rw [add_link_ref_eq, hidem, if_pos rfl]
  have hse : se_add_link_ref s a a txt =
      { s with url_list := (get_entry_id s.url_list a).2 } := by
    rw [se_add_link_ref_eq, hidem, if_pos rfl]
  rw [hcr, hse]
  exact ⟨⟨rfl, get_entry_id_mem s.url_list a, rfl, rfl, rfl, rfl⟩,
    ⟨rfl, get_entry_id_mem s.url_list a, rfl, rfl, rfl, rfl⟩⟩

/-- C3 counterexample: in crawler.py, a store error raised by `add_index` is
caught at the per-URL boundary, not propagated: with an always-raising
`add_index`, crawling a fetchable URL completes normally (`.ok`) with the
URL fetched, skipped and nothing persisted. -/
theorem crawl_ok_despite_store_error :
    (crawl_pass_exc fetch0 fail_add_index pure_add_link_ref emptyStore [] []
      ["u"]).isOk = true ∧
    crawl_pass_exc fetch0 fail_add_index pure_add_link_ref emptyStore [] [] ["u"]
      = .ok ⟨emptyStore, [], ["u"]⟩ :=
  ⟨rfl, rfl⟩

/-- C3 amended: in crawler.py, a store error during `add_index` is caught at
the per-URL boundary (the URL is fetched, logged and skipped, and the pass
completes), while a store error during `add_link_ref` — called outside the
per-URL `try` — propagates out of `crawl`; in search_engine.py a store error
during `add_to_index` (also outside the `try`) propagates as well. -/
theorem store_error_propagation (fetch : String → Option Page) (s : Store)
    (u t l : String) (page : Page) (ls : List (String × String))
    (rest next fetched : List String)
    (h1 : s.is_indexed u = false)
    (h2 : fetch u = some page)
    (h3 : page.links = (t, l) :: ls) :
    (crawl_pass_exc fetch fail_add_index pure_add_link_ref s next fetched
      (u :: rest)).isOk = true ∧
    crawl_pass_exc fetch pure_add_index fail_add_link_ref s next fetched (u :: rest)
      = .error () ∧
    se_crawl_pass_exc fetch se_fail_add_to_index se_pure_add_link_ref s next fetched
      (u :: rest) = .error () := by
  refine ⟨crawl_pass_exc_ok_of_fail_idx fetch (u :: rest) s next fetched, ?_, ?_⟩
  · rw [crawl_pass_exc_cons,
      if_neg (fun hc => Bool.noConfusion (h1 ▸ hc : false = true)), h2]
    simp only [pure_add_index, h3, link_refs_exc, fail_add_link_ref]
  · rw [se_crawl_pass_exc_cons, h2]
    simp only [se_fail_add_to_index]

/-- C3 witness: concrete instance of the amended behavior on a one-URL
frontier with one outgoing link. -/
theorem store_error_propagation_witness :
    (crawl_pass_exc fetch0 fail_add_index pure_add_link_ref emptyStore [] []
      ["u"]).isOk = true ∧
    crawl_pass_exc fetch0 pure_add_index fail_add_link_ref emptyStore [] [] ["u"]
      = .error () ∧
    se_crawl_pass_exc fetch0 se_fail_add_to_index se_pure_add_link_ref emptyStore [] []
      ["u"] = .error () :=
  store_error_propagation fetch0 emptyStore "u" "click here" "l"
    ⟨"hello", [("click here", "l")]⟩ [] [] [] [] (by decide) (by decide) (by decide)

/-- C4 counterexample: crawler.py `crawl` invoked with depth 0 never
terminates, even on an empty frontier with a failing fetcher: after the
decrement the depth is -1 and the `depth == 0` stop condition is never met
again (there is no frontier-emptiness check), so no amount of recursion
fuel makes the call return. -/
theorem crawl_depth_zero_diverges :
    ¬ crawl_terminates (fun _ => none) emptyStore [] 0 := by
  rintro ⟨n, hn⟩
  rw [crawl_fuel_none_of_nonpos (fun _ => none) n emptyStore [] 0 (by omega)] at hn
  exact Bool.noConfusion hn

/-- C4 amended: crawler.py `crawl` terminates for every starting depth ≥ 1,
performing one full frontier pass per depth unit (depth is decremented once
per pass, and `depth` units of fuel suffice); for depth ≤ 0 the recursion
diverges (see the counterexample). -/
theorem crawl_terminates_of_pos_depth (fetch : String → Option Page) (s : Store)
    (urls : List String) (d : Int) (h : 1 ≤ d) :
    (crawl_fuel fetch d.toNat s urls d).isSome = true ∧
    crawl_terminates fetch s urls d := by
  obtain ⟨n, hn⟩ : ∃ n : Nat, d = (n : Int) + 1 := ⟨(d - 1).toNat, by omega⟩
  subst hn
  have ht : ((n : Int) + 1).toNat = n + 1 := by omega
  rw [ht]
  exact ⟨crawl_fuel_some_of_pos fetch n s urls,
    ⟨n + 1, crawl_fuel_some_of_pos fetch n s urls⟩⟩

/-- C4 witness: a depth-1 crawl over an empty frontier terminates. -/
theorem crawl_terminates_of_pos_depth_witness :
    (crawl_fuel (fun _ => none) (1 : Int).toNat emptyStore [] 1).isSome = true ∧
    crawl_terminates (fun _ => none) emptyStore [] 1 :=
  crawl_terminates_of_pos_depth (fun _ => none) emptyStore [] 1 (by omega)

/-- C6 counterexample: search_engine.py `crawl` does NOT add an extracted
link URL to the next frontier when that URL is already indexed: crawling `u`
whose page links to the already-indexed `l` leaves the next frontier
empty. -/
theorem se_crawl_filters_indexed_link :
    (se_crawl_pass fetch0 store_l [] [] ["u"]).next = [] ∧
    "l" ∉ (se_crawl_pass fetch0 store_l [] [] ["u"]).next := by
  decide

/-- C6 amended: in crawler.py, every extracted valid link URL of a
successfully processed frontier URL is added to the next frontier
unconditionally — the statement places no condition on the link URL, which
may already be indexed; in search_engine.py, a link URL is added to the
next frontier only if it is not already indexed at discovery time. -/
theorem crawl_adds_links_unconditionally (fetch : String → Option Page) (s : Store)
    (u : String) (page : Page) (t l : String) (rest : List String)
    (h1 : s.is_indexed u = false) (h2 : fetch u = some page)
    (h3 : (t, l) ∈ page.links) :
    l ∈ (crawl_pass fetch s [] [] (u :: rest)).next := by
  rw [crawl_pass_cons_page h1 h2]
  exact crawl_pass_next_mono fetch rest _ _ _ l
    (do_link_refs_next_mem u page.links _ _ t l h3)

/-- C6 witness: the link target is already indexed, and crawler.py still
adds it to the next frontier. -/
theorem crawl_adds_links_unconditionally_witness :
    store_l.is_indexed "l" = true ∧
    "l" ∈ (crawl_pass fetch0 store_l [] [] ["u"]).next :=
  ⟨by decide,
   crawl_adds_links_unconditionally fetch0 store_l "u"
     ⟨"hello", [("click here", "l")]⟩ "click here" "l" []
     (by decide) (by decide) (by decide)⟩

/-- C7 counterexample: search_engine.py `crawl` performs no indexed check
before step 1: a frontier URL that is already indexed (by both variants'
definitions) is still fetched. -/
theorem se_crawl_fetches_indexed_url :
    store_l.is_indexed "l" = true ∧
    se_is_indexed_truthy store_l "l" = true ∧
    "l" ∈ (se_crawl_pass fetch0 store_l [] [] ["l"]).fetched := by
  decide

/-- C7 amended: in crawler.py, a URL that is already indexed when pulled
from the frontier is filtered out before any fetch happens, and crawling the
frontier `[v, v]` leaves the postings identical to crawling `[v]`;
search_engine.py fetches already-indexed frontier URLs (no pre-fetch
filter), though its `add_to_index` guard still prevents re-indexing. -/
theorem crawl_skips_indexed_urls (fetch : String → Option Page) (s : Store)
    (urls : List String) (u : String) (s2 : Store) (v : String)
    (h : s.is_indexed u = true) :
    u ∉ (crawl_pass fetch s [] [] urls).fetched ∧
    (crawl_pass fetch s2 [] [] [v, v]).store.word_location =
      (crawl_pass fetch s2 [] [] [v]).store.word_location :=
  ⟨crawl_pass_not_fetched_of_indexed fetch urls s [] [] u h (by simp),
   crawl_pass_dup_word_location fetch s2 v⟩

/-- C7 witness: the indexed URL `l` is never fetched by a crawler.py pass
over `[l]`, and crawling `[u, u]` produces the same postings as `[u]`. -/
theorem crawl_skips_indexed_urls_witness :
    "l" ∉ (crawl_pass fetch0 store_l [] [] ["l"]).fetched ∧
    (crawl_pass fetch0 emptyStore [] [] ["u", "u"]).store.word_location =
      (crawl_pass fetch0 emptyStore [] [] ["u"]).store.word_location :=
  crawl_skips_indexed_urls fetch0 store_l ["l"] "l" emptyStore "u" (by decide)

/-- C10: indexing a fresh URL with zero surviving tokens creates the URL
record but no posting, and leaves the URL un-indexed in the eyes of
`is_indexed` — so a crawl pass that reaches it fetches it, still leaves it
un-indexed, and the next pass fetches it again; search_engine.py
`add_to_index` behaves the same on a page whose text is entirely stop
words, and its `is_indexed` stays falsy. -/
theorem add_index_empty_words_unprotected (fetch : String → Option Page) (s : Store)
    (u : String) (page : Page)
    (hb : s.postings_bounded = true)
    (hm : u ∉ s.url_list)
    (hf : fetch u = some page)
    (hw : words_from_text page.text = []) :
    (s.add_index u []).url_list = s.url_list ++ [u] ∧
    (s.add_index u []).word_location = s.word_location ∧
    (s.add_index u []).is_indexed u = false ∧
    u ∈ (crawl_pass fetch s [] [] [u]).fetched ∧
    (crawl_pass fetch s [] [] [u]).store.is_indexed u = false ∧
    u ∈ (crawl_pass fetch (crawl_pass fetch s [] [] [u]).store [] [] [u]).fetched ∧
    (se_add_to_index s u page.text).word_location = s.word_location ∧
    se_is_indexed_truthy (se_add_to_index s u page.text) u = false := by
  have hni : s.is_indexed u = false := is_indexed_false_of_not_mem hm
  have hbd : ∀ p ∈ s.word_location, p.1 ≤ s.url_list.length := by
    intro p hp
    have := List.all_eq_true.mp hb p hp
    exact of_decide_eq_true this
  have hA : s.add_index u [] = { s with url_list := s.url_list ++ [u] } := by
    rw [add_index_not_indexed_eq [] hni, add_index_loop_nil, get_entry_id_of_not_mem hm]
  have hpass : crawl_pass fetch s [] [] [u] =
      ⟨(do_link_refs u (s.add_index u []) [] page.links).1,
       (do_link_refs u (s.add_index u []) [] page.links).2, [u]⟩ := by
    rw [crawl_pass_cons_page hni hf, hw, crawl_pass_nil]
    rfl
  have hS1url : ∃ ext,
      (do_link_refs u (s.add_index u []) [] page.links).1.url_list =
        (s.url_list ++ [u]) ++ ext := by
    obtain ⟨e, he⟩ := do_link_refs_url_list u page.links (s.add_index u []) []
    exact ⟨e, by rw [he, hA]⟩
  have hS1w : (do_link_refs u (s.add_index u []) [] page.links).1.word_location =
      s.word_location := by
    rw [do_link_refs_word_location, hA]
  have hS1idx : (do_link_refs u (s.add_index u []) [] page.links).1.is_indexed u
      = false := is_indexed_false_of_bounded hm hbd hS1url hS1w
  have hstop : ∀ w ∈ separate_words page.text, IGNORE_WORDS.contains w = true := by
    intro w hwmem
    by_contra hc
    have hfalse : IGNORE_WORDS.contains w = false := by
      cases hcc : IGNORE_WORDS.contains w
      · rfl
      · exact absurd hcc hc
    have hmem2 : w ∈ words_from_text page.text := by
      unfold words_from_text
      refine List.mem_filter.mpr ⟨hwmem, ?_⟩
      simp only [decide_eq_true_eq]
      intro hcm
      exact hc hcm
    rw [hw] at hmem2
    simp at hmem2
  have hse : se_add_to_index s u page.text =
      { s with url_list := s.url_list ++ [u] } := by
    rw [se_add_to_index_eq page.text hni, se_add_index_loop_all_stop _ _ hstop,
      get_entry_id_of_not_mem hm]
  refine ⟨by rw [hA], by rw [hA], ?_, ?_, ?_, ?_, by rw [hse], ?_⟩
  · exact is_indexed_false_of_bounded hm hbd ⟨[], by rw [hA]; simp⟩ (by rw [hA])
  · rw [hpass]
    simp
  · rw [hpass]
    exact hS1idx
  · rw [hpass]
    show u ∈ (crawl_pass fetch
      (do_link_refs u (s.add_index u []) [] page.links).1 [] [] [u]).fetched
    rw [crawl_pass_cons_page hS1idx hf, hw, crawl_pass_nil]
    simp
  · rw [se_truthy_eq_is_indexed]
    exact is_indexed_false_of_bounded hm hbd ⟨[], by rw [hse]; simp⟩ (by rw [hse])

/-- C10 witness: a fresh URL whose page text is entirely stop words is
indexed with a record but no postings, stays un-indexed, and is fetched by
two consecutive crawl passes. -/
theorem add_index_empty_words_unprotected_witness :
    (emptyStore.add_index "u" []).url_list = emptyStore.url_list ++ ["u"] ∧
    (emptyStore.add_index "u" []).word_location = emptyStore.word_location ∧
    (emptyStore.add_index "u" []).is_indexed "u" = false ∧
    "u" ∈ (crawl_pass fetch_stop emptyStore [] [] ["u"]).fetched ∧
    (crawl_pass fetch_stop emptyStore [] [] ["u"]).store.is_indexed "u" = false ∧
    "u" ∈ (crawl_pass fetch_stop
      (crawl_pass fetch_stop emptyStore [] [] ["u"]).store [] [] ["u"]).fetched ∧
    (se_add_to_index emptyStore "u" "the of is").word_location =
      emptyStore.word_location ∧
    se_is_indexed_truthy (se_add_to_index emptyStore "u" "the of is") "u" = false :=
  add_index_empty_words_unprotected fetch_stop emptyStore "u"
    ⟨"the of is", [("x", "http://a")]⟩ (by decide) (by decide) (by decide) (by decide)
